import Mathlib

/-!
Shallow embedding of the SpikeAnalysisToolbox repository
(src/spikeAnalysisToolsV2/helper.py and src/spikeAnalysisToolsV2/data_loading.py),
together with theorems settling the specification claims about it.

Machine integers are modelled by Nat/Int, floating point times by ℚ,
fallible code by Option/Except.  Python file handles are abstracted:
functions that read files take the file contents (a list of lines) or a
loading function as an explicit argument.
-/

namespace SpikeAnalysis

/-- The "usual dict" describing the network architecture
(helper.py passes it as a dictionary with these three fields). -/
structure NetworkArchitecture where
  num_exc_neurons_per_layer : Nat
  num_inh_neurons_per_layer : Nat
  num_layers : Nat
deriving DecidableEq

/-- The error message raised by helper.py get_side_length; the Python format
string interpolates the offending size n at the end (the contraction in the
original wording is expanded here). -/
def not_square_msg (n : Nat) : String :=
  "Tried to reshape something into square that was not actually a square number: " ++ toString n

/-- helper.py lines 216-220: side_length = sqrt(n); error if it is not integral. -/
def get_side_length (n_in_layer_type : Nat) : Except String Nat :=
  let side_length := Nat.sqrt n_in_layer_type
  if side_length * side_length = n_in_layer_type then .ok side_length
  else .error (not_square_msg n_in_layer_type)

/-- helper.py lines 108-139, id_to_position.
Positions are modelled as lists of naturals: [layer, y, x] in the 2-D form,
[layer, id_within_layer] otherwise.  The returned Bool is the excitatory flag.
(Note: the Python code computes id_within_layer as id - layer*total; for the
non-negative ids the claims quantify over this equals id % total.) -/
def id_to_position (id : Nat) (network_info : NetworkArchitecture) (pos_as_2d : Bool) :
    Except String (Bool × List Nat) :=
  let num_exc := network_info.num_exc_neurons_per_layer
  let num_inh := network_info.num_inh_neurons_per_layer
  let total_per_layer := num_exc + num_inh
  let layer := id / total_per_layer
  let id_within_layer := id - layer * total_per_layer
  let exc_neuron : Bool := id_within_layer < num_exc
  let n_in_layer_type := if exc_neuron then num_exc else num_inh
  let id_within_layer := if exc_neuron then id_within_layer else id_within_layer - num_exc
  if pos_as_2d then
    match get_side_length n_in_layer_type with
    | .error e => .error e
    | .ok side_length =>
        let x := id_within_layer / side_length
        let y := id_within_layer % side_length
        .ok (exc_neuron, [layer, y, x])
  else
    .ok (exc_neuron, [layer, id_within_layer])

/-- The error message raised by helper.py position_to_id for a non-square layer type. -/
def position_not_square_msg (n : Nat) : String :=
  "The number of neurons ber layer is not a square number: " ++ toString n

/-- helper.py lines 176-214, position_to_id.
pos is [layer, line, column] or [layer, neuron_id]; any other shape is the
ValueError branch of the Python code. -/
def position_to_id (pos : List Nat) (is_excitatory : Bool)
    (network_info : NetworkArchitecture) : Except String Nat :=
  let num_exc := network_info.num_exc_neurons_per_layer
  let num_inh := network_info.num_inh_neurons_per_layer
  let total_per_layer := num_exc + num_inh
  match pos with
  | [layer, line, column] =>
      let first_in_layer_id :=
        if is_excitatory then layer * total_per_layer else layer * total_per_layer + num_exc
      let n_in_layer_type := if is_excitatory then num_exc else num_inh
      let side_length := Nat.sqrt n_in_layer_type
      if side_length * side_length = n_in_layer_type then
        .ok (first_in_layer_id + (column * side_length + line))
      else .error (position_not_square_msg n_in_layer_type)
  | [layer, neuron_id] =>
      let first_in_layer_id :=
        if is_excitatory then layer * total_per_layer else layer * total_per_layer + num_exc
      let n_in_layer_type := if is_excitatory then num_exc else num_inh
      let side_length := Nat.sqrt n_in_layer_type
      if side_length * side_length = n_in_layer_type then
        .ok (first_in_layer_id + neuron_id)
      else .error (position_not_square_msg n_in_layer_type)
  | _ => .error "pos does not have the right shape (tupple of length 2 or 3"

/-- One row of a spike table: a neuron id and a spike time
(pandas DataFrame with columns ids and times; times modelled by ℚ). -/
structure Spike where
  id : Int
  time : ℚ
deriving DecidableEq

/-- np.max over the times column of a non-empty spike table
(the empty case never arises inside splitstimuli, which fails first). -/
def maxTime : List Spike → ℚ
  | [] => 0
  | sp :: rest => (rest.map Spike.time).foldl max sp.time

/-- helper.py lines 13-26, splitstimuli.
np.max of an empty series raises, modelled by none on the empty table.
int(np.ceil(x)) feeding range(...) is modelled by Int.toNat of the ceiling
(range of a non-positive count is empty, exactly as in Python). -/
def splitstimuli (spikes : List Spike) (stimduration : ℚ) :
    Option (List (List Spike)) :=
  match spikes with
  | [] => none
  | sp :: rest =>
      let num_stimuli := (Int.ceil (maxTime (sp :: rest) / stimduration)).toNat
      some ((List.range num_stimuli).map (fun (i : ℕ) =>
        (((sp :: rest).filter (fun s =>
            decide (((i : ℕ) : ℚ) * stimduration < s.time) &&
            decide (s.time < (((i : ℕ) : ℚ) + 1) * stimduration))).map
          (fun s => { s with time := s.time - ((i : ℕ) : ℚ) * stimduration }))))

/-- t is an exact (integer) multiple of d (spec vocabulary for the boundary
spikes dropped by splitstimuli); executable via the floor of t/d. -/
def onBoundary (t d : ℚ) : Bool := decide (t = (Int.floor (t / d) : ℚ) * d)

/-- Python str.strip on the character list of a line. -/
def stripChars (l : List Char) : List Char :=
  ((l.dropWhile Char.isWhitespace).reverse.dropWhile Char.isWhitespace).reverse

/-- Python str.strip. -/
def strip (s : String) : String := String.mk (stripChars s.data)

/-- Splitting a character list at a delimiter (the model of one csv row). -/
def splitFieldsAux (c : Char) : List Char → List Char → List (List Char)
  | [], acc => [acc.reverse]
  | x :: xs, acc =>
      if x = c then acc.reverse :: splitFieldsAux c xs []
      else splitFieldsAux c xs (x :: acc)

/-- Value of a decimal digit character. -/
def digitVal? (ch : Char) : Option Nat :=
  if ch.isDigit then some (ch.toNat - 48) else none

/-- Parse a non-empty all-digit character list as a natural number. -/
def parseNatDigits (l : List Char) : Option Nat :=
  if l.isEmpty then none
  else l.foldl (fun acc ch =>
    match acc, digitVal? ch with
    | some a, some d => some (a * 10 + d)
    | _, _ => none) (some 0)

/-- One object accumulator of data_loading.py load_testing_stimuli_info:
a dict with fields count, elements (a Python set, modelled as a list without
duplicates in insertion order) and indices. -/
structure StimulusObject where
  count : Nat
  elements : List String
  indices : List Nat
deriving DecidableEq

/-- Adding to a Python set: no effect when the element is already present. -/
def addElem (l : List String) (s : String) : List String :=
  if s ∈ l then l else l ++ [s]

/-- The freshly initialised accumulator dict of load_testing_stimuli_info. -/
def emptyObject : StimulusObject := ⟨0, [], []⟩

/-- One iteration of the line loop of load_testing_stimuli_info:
state is (finished objects, current accumulator, current_stim_index). -/
def parseStep (st : List StimulusObject × StimulusObject × Nat) (line : String) :
    List StimulusObject × StimulusObject × Nat :=
  let (objects, current_object, current_stim_index) := st
  let raw_text := strip line
  if raw_text = "*" then
    (objects ++ [current_object], emptyObject, current_stim_index)
  else
    (objects,
     { count := current_object.count + 1,
       elements := addElem current_object.elements raw_text,
       indices := current_object.indices ++ [current_stim_index] },
     current_stim_index + 1)

/-- data_loading.py lines 114-138, load_testing_stimuli_info.
The file is abstracted to its list of lines (Python line.strip() is the trim
inside parseStep).  After the loop the in-progress accumulator is appended
unconditionally and accumulators with count 0 are filtered out. -/
def load_testing_stimuli_info (lines : List String) : List StimulusObject :=
  let st := lines.foldl parseStep ([], emptyObject, 0)
  (st.1 ++ [st.2.1]).filter (fun o => o.count != 0)

/-- One subfolder iteration of the input_layer branch of
load_spikes_from_subfolders: the inner extension loop re-initialises and
refills all_extensions (first state component), then the loop body appends
its final value; appending an unbound all_extensions is the NameError,
recorded as none in the second state component. -/
def input_layer_step {α : Type} (load : String → Bool → Bool → α)
    (masterpath : String) (extensions : List String)
    (st : Option (List α) × Option (List (List α))) (subfol : String) :
    Option (List α) × Option (List (List α)) :=
  let all_extensions := extensions.foldl
    (fun _ ext =>
      some [load (masterpath ++ "/" ++ subfol ++ "/" ++ ext ++ "/") true true])
    st.1
  match st.2, all_extensions with
  | some acc, some l => (all_extensions, some (acc ++ [l]))
  | _, _ => (all_extensions, none)

/-- data_loading.py lines 87-111, load_spikes_from_subfolders.
The file system is abstracted by the loading function, standing for
pandas_load_spikes (currentpath, binaryfile, input_neurons).
In the input_layer branch the Python code re-initialises all_extensions
inside the extension loop; the variable is function-scoped, so with an empty
extension list the append hits an unbound name (NameError), modelled by the
Option state threaded through the fold (none = still unbound). -/
def load_spikes_from_subfolders {α : Type} (load : String → Bool → Bool → α)
    (masterpath : String) (subfolders extensions : List String)
    (input_layer : Bool) : Option (List (List α)) :=
  if input_layer then
    (subfolders.foldl (input_layer_step load masterpath extensions)
      (none, some [])).2
  else
    some (subfolders.map (fun subfol =>
      extensions.map (fun ext =>
        load (masterpath ++ "/" ++ subfol ++ "/" ++ ext ++ "/") true false)))

/-- helper.py lines 396-424, bool_label_matrix_to_mutually_exclusive_ids.
The boolean numpy matrix of shape [n_obj, n_stim] is modelled as its list of
rows (rectangular by construction; theorems carry that hypothesis). -/
def bool_label_matrix_to_mutually_exclusive_ids (bool_array : List (List Bool)) :
    Except String (List (List Nat)) :=
  let n_stim := (bool_array.headD []).length
  let n_obj_that_stimulus_is_part_of := fun j =>
    bool_array.countP (fun row => row.getD j false)
  if (List.range n_stim).any (fun j => decide (1 < n_obj_that_stimulus_is_part_of j)) then
    .error "A stimulus was part of multiple objects"
  else
    .ok (bool_array.map (fun row =>
      (List.range n_stim).filter (fun j => row.getD j false)))

/-- First field of a csv row, as csv.reader yields it (everything before the
first comma); an empty line gives an empty row, whose row[0] access fails,
modelled downstream by a parse failure on the empty field. -/
def firstField (line : String) : List Char :=
  (splitFieldsAux ',' line.data []).headD []

/-- Python int(...) on a text field (modelled for decimal integer literals,
with an optional leading minus sign; surrounding whitespace is accepted). -/
def parseInt (l : List Char) : Option Int :=
  let l := stripChars l
  match l with
  | '-' :: rest => (parseNatDigits rest).map (fun n => -(n : Int))
  | _ => (parseNatDigits l).map (fun n => (n : Int))

def parseIdLine (line : String) : Option Int := parseInt (firstField line)

/-- Python float(...) on a text field, modelled for plain decimal literals
(optional sign, digits, optional fractional part). -/
def parseFloat (l : List Char) : Option ℚ :=
  let l := stripChars l
  let (neg, t) :=
    match l with
    | '-' :: rest => (true, rest)
    | _ => (false, l)
  match splitFieldsAux '.' t [] with
  | [a] => (parseNatDigits a).map (fun n => if neg then -(n : ℚ) else (n : ℚ))
  | [a, b] =>
      match parseNatDigits a, parseNatDigits b with
      | some n, some f =>
          let v : ℚ := (n : ℚ) + (f : ℚ) / ((10 : ℚ) ^ b.length)
          some (if neg then -v else v)
      | _, _ => none
  | _ => none

def parseTimeLine (line : String) : Option ℚ := parseFloat (firstField line)

/-- The per-line accumulation loop of get_spikes in text mode: one parsed
value is appended per line; the first parse failure aborts the whole read
(the exception propagates). -/
def parseLines {β : Type} (f : String → Option β) : List String → Option (List β)
  | [] => some []
  | line :: rest =>
      match f line, parseLines f rest with
      | some v, some vs => some (v :: vs)
      | _, _ => none

/-- data_loading.py lines 32-70, get_spikes in text mode (binaryfile False).
The two files are abstracted to their lists of lines; ids are accumulated by
int(row[0]) line by line, times by float(row[0]); any parse failure raises,
modelled by none (the try/finally only closes handles, it catches nothing). -/
def get_spikes_text (idLines timeLines : List String) :
    Option (List Int × List ℚ) :=
  match parseLines parseIdLine idLines, parseLines parseTimeLine timeLines with
  | some spike_ids, some spike_times => some (spike_ids, spike_times)
  | _, _ => none

/-- Decidable equality for Except results, used to evaluate the embedded
functions on concrete inputs. -/
instance {ε α : Type} [DecidableEq ε] [DecidableEq α] : DecidableEq (Except ε α) :=
  fun a b =>
    match a, b with
    | .ok x, .ok y =>
        if h : x = y then .isTrue (by rw [h]) else .isFalse (by simp [h])
    | .error x, .error y =>
        if h : x = y then .isTrue (by rw [h]) else .isFalse (by simp [h])
    | .ok _, .error _ => .isFalse (by simp)
    | .error _, .ok _ => .isFalse (by simp)

/-- The error message raised by helper.py reshape_into_2d for a non-square
last axis (the format string interpolates the length at the end). -/
def reshape_not_square_msg (n : Nat) : String :=
  "The last dimension is not a square number: " ++ toString n

/-- helper.py lines 328-348, reshape_into_2d, on a 1-D array (the operation
acts on the last axis only; leading axes act elementwise).  np.reshape with
order F fills the first output axis fastest, so entry (i, j) of the result is
element i + side_length * j of the flat input. -/
def reshape_into_2d (unshaped : List ℚ) : Except String (List (List ℚ)) :=
  let n_neurons := unshaped.length
  let side_length := Nat.sqrt n_neurons
  if side_length * side_length = n_neurons then
    .ok ((List.range side_length).map (fun i =>
      (List.range side_length).map (fun j =>
        unshaped.getD (i + side_length * j) 0)))
  else .error (reshape_not_square_msg n_neurons)

/-- helper.py lines 487-525, class NeuronMask: the constructor derives these
constants from the architecture dict. -/
structure NeuronMask where
  n_exc : Nat
  n_inh : Nat
  total_per_layer : Nat
  n_layer : Nat
  n_all_neurons : Nat
  last_exc : Nat
deriving DecidableEq

def NeuronMask.ofArchitecture (net : NetworkArchitecture) : NeuronMask :=
  let n_exc := net.num_exc_neurons_per_layer
  let n_inh := net.num_inh_neurons_per_layer
  let total := n_exc + n_inh
  ⟨n_exc, n_inh, total, net.num_layers, total * net.num_layers, n_exc⟩

/-- The NotImplementedError message of NeuronMask._check_if_in_input_layer. -/
def input_layer_msg : String := "Does not work for input neurons at the moment"

/-- NeuronMask.is_in_layer on an array of ids: raises when any id is negative,
otherwise elementwise (id // total_per_layer) == layer.  For the non-negative
ids admitted by the guard, Python floor division equals Nat division on
Int.toNat. -/
def NeuronMask.is_in_layer (m : NeuronMask) (neuron_ids : List Int) (layer : Nat) :
    Except String (List Bool) :=
  if neuron_ids.any (fun id => decide (id < 0)) then .error input_layer_msg
  else .ok (neuron_ids.map (fun id => id.toNat / m.total_per_layer == layer))

/-- NeuronMask.is_excitatory: id % total_per_layer < n_exc, negative ids raise. -/
def NeuronMask.is_excitatory (m : NeuronMask) (neuron_ids : List Int) :
    Except String (List Bool) :=
  if neuron_ids.any (fun id => decide (id < 0)) then .error input_layer_msg
  else .ok (neuron_ids.map (fun id => decide (id.toNat % m.total_per_layer < m.n_exc)))

/-- NeuronMask.is_inhibitory: id % total_per_layer >= n_exc, negative ids raise. -/
def NeuronMask.is_inhibitory (m : NeuronMask) (neuron_ids : List Int) :
    Except String (List Bool) :=
  if neuron_ids.any (fun id => decide (id < 0)) then .error input_layer_msg
  else .ok (neuron_ids.map (fun id => decide (m.n_exc ≤ id.toNat % m.total_per_layer)))

/-! ## Helper lemmas -/

theorem sqrt_of_sq {a n : Nat} (h : a * a = n) : Nat.sqrt n = a := by
  subst h
  exact Nat.sqrt_eq a

theorem get_side_length_ok {n k : Nat} (h : k * k = n) :
    get_side_length n = .ok k := by
  unfold get_side_length
  rw [sqrt_of_sq h, if_pos h]

theorem get_side_length_err {n : Nat} (h : ∀ k : Nat, k * k ≠ n) :
    get_side_length n = .error (not_square_msg n) := by
  unfold get_side_length
  rw [if_neg (h (Nat.sqrt n))]

/-- The subtraction id - (id // total) * total computed by id_to_position
equals id % total. -/
theorem sub_div_mul_eq_mod (id total : Nat) :
    id - id / total * total = id % total := by
  have hdm := Nat.div_add_mod id total
  have hcom : id / total * total = total * (id / total) := Nat.mul_comm _ _
  omega

/-- Evaluation of id_to_position (2-D form) on an excitatory id, when the
excitatory population is the square of a. -/
theorem id_to_position_exc (net : NetworkArchitecture) (id a : Nat)
    (ha : a * a = net.num_exc_neurons_per_layer)
    (h : id % (net.num_exc_neurons_per_layer + net.num_inh_neurons_per_layer) <
      net.num_exc_neurons_per_layer) :
    id_to_position id net true =
      .ok (true,
        [id / (net.num_exc_neurons_per_layer + net.num_inh_neurons_per_layer),
         (id % (net.num_exc_neurons_per_layer + net.num_inh_neurons_per_layer)) % a,
         (id % (net.num_exc_neurons_per_layer + net.num_inh_neurons_per_layer)) / a]) := by
  have hsub := sub_div_mul_eq_mod id
    (net.num_exc_neurons_per_layer + net.num_inh_neurons_per_layer)
  have hdec : decide (id % (net.num_exc_neurons_per_layer + net.num_inh_neurons_per_layer) <
      net.num_exc_neurons_per_layer) = true := decide_eq_true h
  simp only [id_to_position, hsub, hdec, if_true, get_side_length_ok ha]

/-- Evaluation of id_to_position (2-D form) on an inhibitory id, when the
inhibitory population is the square of b. -/
theorem id_to_position_inh (net : NetworkArchitecture) (id b : Nat)
    (hb : b * b = net.num_inh_neurons_per_layer)
    (h : net.num_exc_neurons_per_layer ≤
      id % (net.num_exc_neurons_per_layer + net.num_inh_neurons_per_layer)) :
    id_to_position id net true =
      .ok (false,
        [id / (net.num_exc_neurons_per_layer + net.num_inh_neurons_per_layer),
         (id % (net.num_exc_neurons_per_layer + net.num_inh_neurons_per_layer) -
           net.num_exc_neurons_per_layer) % b,
         (id % (net.num_exc_neurons_per_layer + net.num_inh_neurons_per_layer) -
           net.num_exc_neurons_per_layer) / b]) := by
  have hsub := sub_div_mul_eq_mod id
    (net.num_exc_neurons_per_layer + net.num_inh_neurons_per_layer)
  have hdec : decide (id % (net.num_exc_neurons_per_layer + net.num_inh_neurons_per_layer) <
      net.num_exc_neurons_per_layer) = false := decide_eq_false (by omega)
  simp only [id_to_position, hsub, hdec, Bool.false_eq_true, if_false,
    get_side_length_ok hb]
  simp

/-- Evaluation of position_to_id on a 3-tuple for an excitatory neuron when
the excitatory population is the square of s. -/
theorem position_to_id_exc (net : NetworkArchitecture)
    (layer line column s : Nat) (hs : s * s = net.num_exc_neurons_per_layer) :
    position_to_id [layer, line, column] true net =
      .ok (layer * (net.num_exc_neurons_per_layer + net.num_inh_neurons_per_layer) +
        (column * s + line)) := by
  simp only [position_to_id, if_true, sqrt_of_sq hs, if_pos hs]

/-- Evaluation of position_to_id on a 3-tuple for an inhibitory neuron when
the inhibitory population is the square of s. -/
theorem position_to_id_inh (net : NetworkArchitecture)
    (layer line column s : Nat) (hs : s * s = net.num_inh_neurons_per_layer) :
    position_to_id [layer, line, column] false net =
      .ok (layer * (net.num_exc_neurons_per_layer + net.num_inh_neurons_per_layer) +
        net.num_exc_neurons_per_layer + (column * s + line)) := by
  simp only [position_to_id, Bool.false_eq_true, if_false, sqrt_of_sq hs, if_pos hs]

/-! ## Claims -/

/-- C6: get_side_length returns the exact integer square root for a perfect
square population size (8 for 64) and otherwise fails with an error whose
message reports the offending size (for instance 50); the 2-D grid placement
id_to_position, built on it, fails with the same error for a non-square
excitatory population size. -/
theorem get_side_length_spec :
    (∀ n k : Nat, k * k = n → get_side_length n = .ok k)
    ∧ (∀ n : Nat, (∀ k : Nat, k * k ≠ n) →
        get_side_length n = .error (not_square_msg n))
    ∧ get_side_length 64 = .ok 8
    ∧ get_side_length 50 = .error (not_square_msg 50)
    ∧ (∀ (net : NetworkArchitecture) (id : Nat),
        (∀ k : Nat, k * k ≠ net.num_exc_neurons_per_layer) →
        id % (net.num_exc_neurons_per_layer + net.num_inh_neurons_per_layer) <
          net.num_exc_neurons_per_layer →
        id_to_position id net true = .error (not_square_msg net.num_exc_neurons_per_layer)) := by
  have h50 : ∀ k : Nat, k * k ≠ 50 := by
    intro k hk
    rcases le_or_lt k 7 with h | h
    · have := Nat.mul_le_mul h h
      omega
    · have h8 : 8 ≤ k := by omega
      have := Nat.mul_le_mul h8 h8
      omega
  refine ⟨fun n k h => get_side_length_ok h, fun n h => get_side_length_err h,
    get_side_length_ok (by norm_num), get_side_length_err h50, ?_⟩
  intro net id hnsq hexc
  have hsub := sub_div_mul_eq_mod id
    (net.num_exc_neurons_per_layer + net.num_inh_neurons_per_layer)
  have hdec : decide (id % (net.num_exc_neurons_per_layer + net.num_inh_neurons_per_layer) <
      net.num_exc_neurons_per_layer) = true := decide_eq_true hexc
  simp only [id_to_position, hsub, hdec, if_true, get_side_length_err hnsq]

/-- Witness for C6: the universally quantified parts of get_side_length_spec
applied at the concrete sizes 64 (a perfect square) and 50 (not one). -/
theorem get_side_length_spec_witness :
    get_side_length 64 = .ok 8 ∧ get_side_length 50 = .error (not_square_msg 50) ∧
      id_to_position 3 ⟨50, 4, 1⟩ true = .error (not_square_msg 50) := by
  have h50 : ∀ k : Nat, k * k ≠ 50 := by
    intro k hk
    rcases le_or_lt k 7 with h | h
    · have := Nat.mul_le_mul h h
      omega
    · have h8 : 8 ≤ k := by omega
      have := Nat.mul_le_mul h8 h8
      omega
  exact ⟨get_side_length_spec.1 64 8 (by norm_num),
    get_side_length_spec.2.1 50 h50,
    get_side_length_spec.2.2.2.2 ⟨50, 4, 1⟩ 3 h50 (by norm_num)⟩

/-- C1: for an architecture whose excitatory and inhibitory per-layer sizes
are perfect squares and any global id in range, converting with
id_to_position (2-D form) and back with position_to_id, using the reported
classification, returns the original id. -/
theorem id_position_round_trip (net : NetworkArchitecture) (id : Nat)
    (hexc : ∃ a : Nat, a * a = net.num_exc_neurons_per_layer)
    (hinh : ∃ b : Nat, b * b = net.num_inh_neurons_per_layer)
    (hid : id < net.num_layers *
      (net.num_exc_neurons_per_layer + net.num_inh_neurons_per_layer)) :
    ∃ (exc : Bool) (pos : List Nat),
      id_to_position id net true = .ok (exc, pos) ∧
      position_to_id pos exc net = .ok id := by
  obtain ⟨a, ha⟩ := hexc
  obtain ⟨b, hb⟩ := hinh
  have hdm := Nat.div_add_mod id
    (net.num_exc_neurons_per_layer + net.num_inh_neurons_per_layer)
  have hcom : id / (net.num_exc_neurons_per_layer + net.num_inh_neurons_per_layer) *
      (net.num_exc_neurons_per_layer + net.num_inh_neurons_per_layer) =
      (net.num_exc_neurons_per_layer + net.num_inh_neurons_per_layer) *
      (id / (net.num_exc_neurons_per_layer + net.num_inh_neurons_per_layer)) :=
    Nat.mul_comm _ _
  by_cases h : id % (net.num_exc_neurons_per_layer + net.num_inh_neurons_per_layer) <
      net.num_exc_neurons_per_layer
  · refine ⟨true, _, id_to_position_exc net id a ha h, ?_⟩
    rw [position_to_id_exc net _ _ _ a ha]
    have hrec := Nat.div_add_mod
      (id % (net.num_exc_neurons_per_layer + net.num_inh_neurons_per_layer)) a
    have hrecc : id % (net.num_exc_neurons_per_layer + net.num_inh_neurons_per_layer) / a * a =
        a * (id % (net.num_exc_neurons_per_layer + net.num_inh_neurons_per_layer) / a) :=
      Nat.mul_comm _ _
    congr 1
    omega
  · refine ⟨false, _, id_to_position_inh net id b hb (by omega), ?_⟩
    rw [position_to_id_inh net _ _ _ b hb]
    have hrec := Nat.div_add_mod
      (id % (net.num_exc_neurons_per_layer + net.num_inh_neurons_per_layer) -
        net.num_exc_neurons_per_layer) b
    have hrecc : (id % (net.num_exc_neurons_per_layer + net.num_inh_neurons_per_layer) -
        net.num_exc_neurons_per_layer) / b * b =
        b * ((id % (net.num_exc_neurons_per_layer + net.num_inh_neurons_per_layer) -
        net.num_exc_neurons_per_layer) / b) :=
      Nat.mul_comm _ _
    congr 1
    omega

/-- Witness for C1: the round trip at the concrete architecture with 4
excitatory and 1 inhibitory neurons per layer, 2 layers, and global id 7
(the inhibitory neuron of layer 1). -/
theorem id_position_round_trip_witness :
    ∃ (exc : Bool) (pos : List Nat),
      id_to_position 7 ⟨4, 1, 2⟩ true = .ok (exc, pos) ∧
      position_to_id pos exc ⟨4, 1, 2⟩ = .ok 7 :=
  id_position_round_trip ⟨4, 1, 2⟩ 7 ⟨2, rfl⟩ ⟨1, rfl⟩ (by norm_num)

/-- Reading an entry of a map over List.range through getD. -/
theorem getD_map_range {α : Type} (s i : Nat) (f : Nat → α) (d : α) (h : i < s) :
    ((List.range s).map f).getD i d = f i := by
  have hlen : i < ((List.range s).map f).length := by simpa using h
  rw [List.getD_eq_getElem _ d hlen, List.getElem_map, List.getElem_range]

/-- C8: for an array whose last axis length is the perfect square s*s,
reshape_into_2d yields an s x s grid filled in column-major order (reading
down column j of the grid gives s consecutive elements of the input starting
at s*j); the 1-D array [0..8] becomes [[0,3,6],[1,4,7],[2,5,8]]; a non-square
last-axis length is a hard error reporting that length. -/
theorem reshape_into_2d_spec :
    (∀ (v : List ℚ) (s : Nat), v.length = s * s →
      ∃ g, reshape_into_2d v = .ok g ∧ g.length = s ∧
        (∀ j, j < s →
          (List.range s).map (fun i => (g.getD i []).getD j 0) =
            (v.drop (s * j)).take s))
    ∧ reshape_into_2d [0, 1, 2, 3, 4, 5, 6, 7, 8] =
        .ok [[0, 3, 6], [1, 4, 7], [2, 5, 8]]
    ∧ (∀ v : List ℚ, (∀ k : Nat, k * k ≠ v.length) →
        reshape_into_2d v = .error (reshape_not_square_msg v.length)) := by
  refine ⟨?_, ?_, ?_⟩
  · intro v s hv
    have hs : Nat.sqrt v.length = s := sqrt_of_sq hv.symm
    refine ⟨(List.range s).map (fun i => (List.range s).map (fun j =>
      v.getD (i + s * j) 0)), ?_, by simp, ?_⟩
    · simp only [reshape_into_2d, hs, if_pos hv.symm]
    · intro j hj
      have hmono : s * (j + 1) ≤ s * s := Nat.mul_le_mul_left s (by omega)
      have hms : s * (j + 1) = s * j + s := by ring
      have hlen : ((v.drop (s * j)).take s).length = s := by
        simp only [List.length_take, List.length_drop, hv]
        omega
      refine List.ext_getElem (by simpa using hlen) ?_
      intro i hi hi'
      have his : i < s := by simpa using hi
      have hidx : i + s * j < v.length := by omega
      rw [List.getElem_map, List.getElem_take, List.getElem_drop,
        List.getElem_range, getD_map_range s i _ [] his,
        getD_map_range s j _ 0 hj, List.getD_eq_getElem v 0 hidx]
      congr 1
      omega
  · have h9 : Nat.sqrt (9 : Nat) = 3 := sqrt_of_sq (by norm_num)
    simp only [reshape_into_2d, List.length_cons, List.length_nil]
    norm_num [h9]
    decide
  · intro v h
    simp only [reshape_into_2d, if_neg (h (Nat.sqrt v.length))]

/-- Witness for C8: the general column-major conjunct applied to the concrete
9-element array with side 3, and the non-square branch applied to a
2-element array. -/
theorem reshape_into_2d_spec_witness :
    (∃ g, reshape_into_2d [0, 1, 2, 3, 4, 5, 6, 7, 8] = .ok g ∧ g.length = 3 ∧
      (∀ j, j < 3 →
        (List.range 3).map (fun i => (g.getD i []).getD j 0) =
          (([0, 1, 2, 3, 4, 5, 6, 7, 8] : List ℚ).drop (3 * j)).take 3))
    ∧ reshape_into_2d [0, 1] = .error (reshape_not_square_msg 2) := by
  constructor
  · exact reshape_into_2d_spec.1 [0, 1, 2, 3, 4, 5, 6, 7, 8] 3 (by norm_num)
  · have h2 : ∀ k : Nat, k * k ≠ ([0, 1] : List ℚ).length := by
      intro k hk
      simp only [List.length_cons, List.length_nil] at hk
      rcases le_or_lt k 1 with h | h
      · have := Nat.mul_le_mul h h
        omega
      · have := Nat.mul_le_mul h h
        omega
    simpa using reshape_into_2d_spec.2.2 [0, 1] h2

/-- C9: every NeuronMask membership predicate fails with the unsupported
error when any queried id is negative; on non-negative ids, is_in_layer
decides id // total_per_layer == layer, is_excitatory decides
id % total_per_layer < n_exc, is_inhibitory decides the complement. -/
theorem neuron_mask_spec (net : NetworkArchitecture)
    (htot : 0 < net.num_exc_neurons_per_layer + net.num_inh_neurons_per_layer) :
    (∀ (ids : List Int) (layer : Nat), (∃ id ∈ ids, id < 0) →
      (NeuronMask.ofArchitecture net).is_in_layer ids layer = .error input_layer_msg ∧
      (NeuronMask.ofArchitecture net).is_excitatory ids = .error input_layer_msg ∧
      (NeuronMask.ofArchitecture net).is_inhibitory ids = .error input_layer_msg)
    ∧ (∀ (ids : List Int) (layer : Nat), (∀ id ∈ ids, 0 ≤ id) →
      (NeuronMask.ofArchitecture net).is_in_layer ids layer =
        .ok (ids.map (fun id => decide (id.toNat /
          (net.num_exc_neurons_per_layer + net.num_inh_neurons_per_layer) = layer))) ∧
      (NeuronMask.ofArchitecture net).is_excitatory ids =
        .ok (ids.map (fun id => decide (id.toNat %
          (net.num_exc_neurons_per_layer + net.num_inh_neurons_per_layer) <
          net.num_exc_neurons_per_layer))) ∧
      (NeuronMask.ofArchitecture net).is_inhibitory ids =
        .ok (ids.map (fun id => decide (net.num_exc_neurons_per_layer ≤ id.toNat %
          (net.num_exc_neurons_per_layer + net.num_inh_neurons_per_layer))))) := by
  constructor
  · intro ids layer hneg
    have hany : ids.any (fun id => decide (id < 0)) = true := by
      simp only [List.any_eq_true, decide_eq_true_eq]
      exact hneg
    refine ⟨?_, ?_, ?_⟩ <;>
      simp only [NeuronMask.is_in_layer, NeuronMask.is_excitatory,
        NeuronMask.is_inhibitory, hany, if_true]
  · intro ids layer hpos
    have hany : ids.any (fun id => decide (id < 0)) = false := by
      simp only [List.any_eq_false, decide_eq_true_eq]
      intro id hid
      exact not_lt.mpr (hpos id hid)
    have hbeq : ∀ a b : Nat, (a == b) = decide (a = b) := by
      intro a b
      by_cases h : a = b <;> simp [h]
    refine ⟨?_, ?_, ?_⟩ <;>
      simp only [NeuronMask.is_in_layer, NeuronMask.is_excitatory,
        NeuronMask.is_inhibitory, hany, Bool.false_eq_true, if_false,
        NeuronMask.ofArchitecture, hbeq]

/-- Witness for C9: the two parts of neuron_mask_spec at the architecture
with 4 excitatory, 1 inhibitory neurons per layer and 2 layers: a negative
id makes is_excitatory fail, and id 7 is correctly classified. -/
theorem neuron_mask_spec_witness :
    (NeuronMask.ofArchitecture ⟨4, 1, 2⟩).is_excitatory [-1] = .error input_layer_msg ∧
    (NeuronMask.ofArchitecture ⟨4, 1, 2⟩).is_in_layer [7] 1 =
      .ok [decide ((7 : Int).toNat / (4 + 1) = 1)] := by
  constructor
  · exact ((neuron_mask_spec ⟨4, 1, 2⟩ (by norm_num)).1 [-1] 0
      ⟨-1, by simp, by norm_num⟩).2.1
  · exact ((neuron_mask_spec ⟨4, 1, 2⟩ (by norm_num)).2 [7] 1
      (by intro id hid; simp at hid; omega)).1

/-- C5: on a rectangular [n_objects, n_stimuli] boolean matrix,
bool_label_matrix_to_mutually_exclusive_ids fails with the multiple-objects
error exactly when some stimulus column is true for more than one object row,
and otherwise returns, per object row in order, the indices at which the row
is true. -/
theorem bool_label_matrix_spec (bool_array : List (List Bool))
    (hrect : ∀ row ∈ bool_array, row.length = (bool_array.headD []).length) :
    (bool_label_matrix_to_mutually_exclusive_ids bool_array =
        .error "A stimulus was part of multiple objects" ↔
      ∃ j < (bool_array.headD []).length,
        1 < bool_array.countP (fun row => row.getD j false))
    ∧ ((∀ j < (bool_array.headD []).length,
          bool_array.countP (fun row => row.getD j false) ≤ 1) →
      bool_label_matrix_to_mutually_exclusive_ids bool_array =
        .ok (bool_array.map (fun row =>
          (List.range row.length).filter (fun j => row.getD j false)))) := by
  constructor
  · by_cases hC : (List.range (bool_array.headD []).length).any
        (fun j => decide (1 < bool_array.countP (fun row => row.getD j false))) = true
    · simp only [bool_label_matrix_to_mutually_exclusive_ids, hC, if_true]
      simp only [List.any_eq_true, List.mem_range, decide_eq_true_eq] at hC
      simpa using hC
    · simp only [bool_label_matrix_to_mutually_exclusive_ids, hC, if_false]
      rw [Bool.not_eq_true] at hC
      simp only [List.any_eq_false, List.mem_range, decide_eq_true_eq] at hC
      constructor
      · intro h
        exact absurd h (by simp)
      · intro ⟨j, hj, hcount⟩
        exact absurd hcount (hC j hj)
  · intro hle
    have hC : (List.range (bool_array.headD []).length).any
        (fun j => decide (1 < bool_array.countP (fun row => row.getD j false))) = false := by
      simp only [List.any_eq_false, List.mem_range, decide_eq_true_eq]
      intro j hj
      exact not_lt.mpr (hle j hj)
    simp only [bool_label_matrix_to_mutually_exclusive_ids, hC, Bool.false_eq_true,
      if_false]
    congr 1
    refine List.map_congr_left ?_
    intro row hrow
    rw [hrect row hrow]

/-- Witness for C5: a rectangular mutually exclusive 2 x 3 matrix converts
successfully, and a matrix whose first column is claimed by both objects
fails with the multiple-objects error. -/
theorem bool_label_matrix_spec_witness :
    bool_label_matrix_to_mutually_exclusive_ids [[true, false, true], [false, true, false]] =
      .ok ([[true, false, true], [false, true, false]].map (fun row =>
        (List.range row.length).filter (fun j => row.getD j false)))
    ∧ bool_label_matrix_to_mutually_exclusive_ids [[true, false], [true, false]] =
      .error "A stimulus was part of multiple objects" := by
  constructor
  · exact (bool_label_matrix_spec [[true, false, true], [false, true, false]]
      (by decide)).2 (by decide)
  · exact (bool_label_matrix_spec [[true, false], [true, false]]
      (by decide)).1.mpr ⟨0, by norm_num, by decide⟩

/-- C10: splitstimuli fails on an empty spike table (np.max of an empty
series raises) instead of returning an empty window list, and succeeds on
every non-empty table. -/
theorem splitstimuli_empty_spec :
    (∀ d : ℚ, splitstimuli [] d = none)
    ∧ (∀ (spikes : List Spike) (d : ℚ), spikes ≠ [] →
        (splitstimuli spikes d).isSome = true) := by
  refine ⟨fun d => rfl, ?_⟩
  intro spikes d h
  match spikes with
  | [] => exact absurd rfl h
  | sp :: rest => simp [splitstimuli]

/-- Witness for C10: splitstimuli succeeds on a one-spike table. -/
theorem splitstimuli_empty_spec_witness :
    (splitstimuli [⟨0, 1⟩] 1).isSome = true :=
  splitstimuli_empty_spec.2 [⟨0, 1⟩] 1 (by simp)

/-- C3: the stimulus-listing parser on the content a, b, *, c, * yields two
objects, count 2 with elements a,b and indices [0,1], then count 1 with
element c and index [2]; every returned object has non-zero count (count-0
accumulators, such as the one produced by a trailing * *, are excluded). -/
theorem load_testing_stimuli_info_spec :
    load_testing_stimuli_info ["a", "b", "*", "c", "*"] =
      [⟨2, ["a", "b"], [0, 1]⟩, ⟨1, ["c"], [2]⟩]
    ∧ (∀ (lines : List String) (obj : StimulusObject),
        obj ∈ load_testing_stimuli_info lines → obj.count ≠ 0)
    ∧ load_testing_stimuli_info ["*", "*"] = [] := by
  refine ⟨by decide, ?_, by decide⟩
  intro lines obj hmem
  simp only [load_testing_stimuli_info, List.mem_filter, bne_iff_ne, ne_eq] at hmem
  exact hmem.2

/-- Witness for C3: the non-zero-count property of load_testing_stimuli_info
at the concrete listing a, * and its returned object. -/
theorem load_testing_stimuli_info_spec_witness :
    (⟨1, ["a"], [0]⟩ : StimulusObject).count ≠ 0 :=
  load_testing_stimuli_info_spec.2.1 ["a", "*"] ⟨1, ["a"], [0]⟩ (by decide)

/-- parseLines produces one output element per input line when it succeeds. -/
theorem parseLines_length {β : Type} (f : String → Option β) :
    ∀ (l : List String) (r : List β), parseLines f l = some r → r.length = l.length := by
  intro l
  induction l with
  | nil =>
      intro r hr
      simp only [parseLines, Option.some.injEq] at hr
      rw [← hr]
      rfl
  | cons x xs ih =>
      intro r hr
      simp only [parseLines] at hr
      match hx : f x, hxs : parseLines f xs with
      | some v, some vs =>
          rw [hx, hxs] at hr
          simp only [Option.some.injEq] at hr
          rw [← hr]
          simp [ih vs hxs]
      | some v, none => rw [hx, hxs] at hr; exact absurd hr (by simp)
      | none, some vs => rw [hx, hxs] at hr; exact absurd hr (by simp)
      | none, none => rw [hx, hxs] at hr; exact absurd hr (by simp)

/-- Counterexample to C7 as stated: reading an id file of two lines together
with a times file of one line succeeds and returns sequences of different
lengths, so the two sequences returned by get_spikes in text mode are not
always of equal length. -/
theorem get_spikes_text_unequal_lengths :
    get_spikes_text ["0", "1"] ["0"] = some ([0, 1], [((0 : ℕ) : ℚ)])
    ∧ ([0, 1] : List Int).length ≠ ([((0 : ℕ) : ℚ)] : List ℚ).length := by
  exact ⟨rfl, by norm_num⟩

/-- C7 (amended): whenever get_spikes in text mode succeeds, it returns one
id per line of the id file and one time per line of the times file; the two
sequences have equal length whenever the two files have equally many lines. -/
theorem get_spikes_text_lengths (idLines timeLines : List String)
    (ids : List Int) (times : List ℚ)
    (h : get_spikes_text idLines timeLines = some (ids, times)) :
    ids.length = idLines.length ∧ times.length = timeLines.length ∧
    (idLines.length = timeLines.length → ids.length = times.length) := by
  simp only [get_spikes_text] at h
  match hx : parseLines parseIdLine idLines, hy : parseLines parseTimeLine timeLines with
  | some a, some b =>
      rw [hx, hy] at h
      simp only [Option.some.injEq, Prod.mk.injEq] at h
      obtain ⟨ha, hb⟩ := h
      rw [← ha, ← hb]
      have h1 := parseLines_length parseIdLine idLines a hx
      have h2 := parseLines_length parseTimeLine timeLines b hy
      exact ⟨h1, h2, fun he => by omega⟩
  | some a, none => rw [hx, hy] at h; exact absurd h (by simp)
  | none, some b => rw [hx, hy] at h; exact absurd h (by simp)
  | none, none => rw [hx, hy] at h; exact absurd h (by simp)

/-- Witness for C7 (amended): the length facts at a concrete one-line pair
of files. -/
theorem get_spikes_text_lengths_witness :
    ([3] : List Int).length = (["3"] : List String).length ∧
    ([((2 : ℕ) : ℚ)] : List ℚ).length = (["2"] : List String).length ∧
    ((["3"] : List String).length = (["2"] : List String).length →
      ([3] : List Int).length = ([((2 : ℕ) : ℚ)] : List ℚ).length) :=
  get_spikes_text_lengths ["3"] ["2"] [3] [((2 : ℕ) : ℚ)] rfl

/-- A fold whose body ignores the accumulator ends at the image of the last
list element (the overwrite pattern of the input_layer extension loop). -/
theorem foldl_overwrite {β γ : Type} (g : β → γ) :
    ∀ (l : List β) (init : γ) (h : l ≠ []),
      l.foldl (fun _ x => g x) init = g (l.getLast h)
  | [], _, h => absurd rfl h
  | [x], init, _ => rfl
  | x :: y :: t, init, _ => by
      rw [List.foldl_cons]
      rw [foldl_overwrite g (y :: t) (g x) (by simp)]
      rfl

/-- The input_layer branch of load_spikes_from_subfolders, fully unrolled:
for a non-empty extension list, each subfolder contributes a one-element list
holding only the table of the last extension. -/
theorem input_layer_fold {α : Type} (load : String → Bool → Bool → α)
    (masterpath : String) (extensions : List String) (hne : extensions ≠ []) :
    ∀ (subfolders : List String) (s0 : Option (List α)) (acc : List (List α)),
      (subfolders.foldl (input_layer_step load masterpath extensions)
        (s0, some acc)).2 =
        some (acc ++ subfolders.map (fun subfol =>
          [load (masterpath ++ "/" ++ subfol ++ "/" ++ extensions.getLast hne ++ "/")
            true true])) := by
  intro subfolders
  induction subfolders with
  | nil => intro s0 acc; simp
  | cons subfol rest ih =>
      intro s0 acc
      rw [List.foldl_cons]
      have hstep : input_layer_step load masterpath extensions (s0, some acc) subfol =
          (some [load (masterpath ++ "/" ++ subfol ++ "/" ++
              extensions.getLast hne ++ "/") true true],
           some (acc ++ [[load (masterpath ++ "/" ++ subfol ++ "/" ++
              extensions.getLast hne ++ "/") true true]])) := by
        simp only [input_layer_step, foldl_overwrite _ extensions s0 hne]
      rw [hstep, ih]
      simp

/-- C4: with the input-layer flag set and at least one extension,
load_spikes_from_subfolders keeps, per subfolder, only the table loaded for
the last extension (the accumulator is reset on every extension iteration);
with the flag unset it keeps one table per extension in extension order. -/
theorem load_spikes_from_subfolders_spec {α : Type}
    (load : String → Bool → Bool → α) (masterpath : String)
    (subfolders extensions : List String) (hne : extensions ≠ []) :
    load_spikes_from_subfolders load masterpath subfolders extensions true =
      some (subfolders.map (fun subfol =>
        [load (masterpath ++ "/" ++ subfol ++ "/" ++ extensions.getLast hne ++ "/")
          true true]))
    ∧ load_spikes_from_subfolders load masterpath subfolders extensions false =
      some (subfolders.map (fun subfol =>
        extensions.map (fun ext =>
          load (masterpath ++ "/" ++ subfol ++ "/" ++ ext ++ "/") true false))) := by
  constructor
  · simp only [load_spikes_from_subfolders, if_true]
    rw [input_layer_fold load masterpath extensions hne subfolders none []]
    simp
  · rfl

/-- Witness for C4: two subfolders and two extensions; with the input-layer
flag only the table of extension e2 survives per subfolder, without it both
extensions appear. -/
theorem load_spikes_from_subfolders_spec_witness :
    load_spikes_from_subfolders (fun p _ i => p ++ toString i) "m"
      ["s1", "s2"] ["e1", "e2"] true =
      some (["s1", "s2"].map (fun subfol =>
        [(fun (p : String) (_ : Bool) (i : Bool) => p ++ toString i)
          ("m" ++ "/" ++ subfol ++ "/" ++ (["e1", "e2"].getLast (by simp)) ++ "/")
          true true]))
    ∧ load_spikes_from_subfolders (fun p _ i => p ++ toString i) "m"
      ["s1", "s2"] ["e1", "e2"] false =
      some (["s1", "s2"].map (fun subfol =>
        ["e1", "e2"].map (fun ext =>
          (fun (p : String) (_ : Bool) (i : Bool) => p ++ toString i)
            ("m" ++ "/" ++ subfol ++ "/" ++ ext ++ "/") true false))) :=
  load_spikes_from_subfolders_spec (fun p _ i => p ++ toString i) "m"
    ["s1", "s2"] ["e1", "e2"] (by simp)

/-- foldl max dominates its starting value and every list element. -/
theorem le_foldl_max (l : List ℚ) :
    ∀ a : ℚ, a ≤ l.foldl max a ∧ ∀ x ∈ l, x ≤ l.foldl max a := by
  induction l with
  | nil =>
      intro a
      exact ⟨le_refl a, by simp⟩
  | cons y t ih =>
      intro a
      have h := ih (max a y)
      refine ⟨le_trans (le_max_left a y) h.1, ?_⟩
      intro x hx
      rcases List.mem_cons.mp hx with rfl | hx
      · exact le_trans (le_max_right a x) h.1
      · exact h.2 x hx

/-- maxTime bounds every spike time of a non-empty table. -/
theorem maxTime_ge (sp : Spike) (rest : List Spike) :
    ∀ s ∈ sp :: rest, s.time ≤ maxTime (sp :: rest) := by
  intro s hs
  rcases List.mem_cons.mp hs with rfl | hs
  · exact (le_foldl_max (rest.map Spike.time) s.time).1
  · exact (le_foldl_max (rest.map Spike.time) sp.time).2 s.time
      (List.mem_map_of_mem Spike.time hs)

/-- onBoundary decides whether t is an integer multiple of d. -/
theorem onBoundary_iff (t d : ℚ) (hd : d ≠ 0) :
    onBoundary t d = true ↔ ∃ k : ℤ, t = (k : ℚ) * d := by
  simp only [onBoundary, decide_eq_true_eq]
  constructor
  · intro h
    exact ⟨Int.floor (t / d), h⟩
  · rintro ⟨k, rfl⟩
    rw [mul_div_assoc, div_self hd, mul_one, Int.floor_intCast]

theorem sum_map_add {β : Type} (l : List β) (f g : β → ℕ) :
    (l.map (fun x => f x + g x)).sum = (l.map f).sum + (l.map g).sum := by
  induction l with
  | nil => rfl
  | cons x t ih =>
      simp only [List.map_cons, List.sum_cons, ih]
      omega

theorem sum_map_ite_one {β : Type} (l : List β) (q : β → Bool) :
    (l.map (fun x => if q x then 1 else 0)).sum = (l.filter q).length := by
  induction l with
  | nil => rfl
  | cons x t ih =>
      rw [List.map_cons, List.sum_cons, List.filter_cons]
      by_cases h : q x = true
      · simp [h, ih]
        omega
      · simp [h, ih]

theorem length_filter_cons {β : Type} (s : β) (l : List β) (q : β → Bool) :
    ((s :: l).filter q).length = (if q s then 1 else 0) + (l.filter q).length := by
  rw [List.filter_cons]
  by_cases h : q s = true
  · simp [h]
    omega
  · simp [h]

/-- Exchanging the order of summation: summing per-window filtered lengths
over the window indices equals summing, per spike, the number of windows
that select it. -/
theorem sum_count_swap (p : ℕ → Spike → Bool) (idxs : List ℕ) :
    ∀ l : List Spike,
      (idxs.map (fun i => (l.filter (p i)).length)).sum
        = (l.map (fun s => (idxs.filter (fun i => p i s)).length)).sum := by
  intro l
  induction l with
  | nil =>
      simp only [List.filter_nil, List.length_nil, List.map_nil, List.sum_nil]
      refine List.sum_eq_zero ?_
      intro x hx
      rcases List.mem_map.mp hx with ⟨i, _, rfl⟩
      rfl
  | cons s t ih =>
      have h1 : (idxs.map (fun i => ((s :: t).filter (p i)).length)).sum =
          (idxs.map (fun i => (if p i s then 1 else 0) + (t.filter (p i)).length)).sum := by
        congr 1
        exact List.map_congr_left (fun i _ => length_filter_cons s t (p i))
      rw [h1, sum_map_add, sum_map_ite_one, List.map_cons, List.sum_cons, ih]

/-- A filter over List.range whose predicate holds exactly at one index
below n yields the singleton of that index. -/
theorem filter_range_eq_single (q : ℕ → Bool) (i₀ : ℕ)
    (hq : ∀ i, q i = true ↔ i = i₀) :
    ∀ n : ℕ, i₀ < n → (List.range n).filter q = [i₀] := by
  intro n
  induction n with
  | zero => omega
  | succ m ih =>
      intro h
      rw [List.range_succ, List.filter_append]
      by_cases hm : i₀ = m
      · have hnil : (List.range m).filter q = [] := by
          refine List.filter_eq_nil_iff.mpr ?_
          intro i hi hqi
          have := (hq i).mp hqi
          simp only [List.mem_range] at hi
          omega
        have hqm : q m = true := (hq m).mpr hm.symm
        simp [hnil, List.filter_cons, hqm, hm]
      · have h2 : i₀ < m := by omega
        have hqm : q m = false := by
          rw [Bool.eq_false_iff]
          intro hc
          exact hm ((hq m).mp hc).symm
        rw [ih h2]
        simp [List.filter_cons, hqm]

/-- The number of stimulus windows of splitstimuli that select a spike at
time t bounded by maxT: none when t lies exactly on a multiple of the
duration, exactly one otherwise. -/
theorem window_count (d : ℚ) (hd : 0 < d) (maxT t : ℚ)
    (ht0 : 0 ≤ t) (hle : t ≤ maxT) :
    ((List.range (Int.ceil (maxT / d)).toNat).filter
      (fun i => decide (((i : ℕ) : ℚ) * d < t) &&
        decide (t < (((i : ℕ) : ℚ) + 1) * d))).length
      = if onBoundary t d then 0 else 1 := by
  by_cases hb : onBoundary t d = true
  · obtain ⟨k, hk⟩ := (onBoundary_iff t d hd.ne').mp hb
    rw [hb, if_pos rfl, List.length_eq_zero]
    refine List.filter_eq_nil_iff.mpr ?_
    intro i _
    simp only [Bool.and_eq_true, decide_eq_true_eq, not_and]
    intro h1 h2
    rw [hk] at h1 h2
    have hik : ((i : ℕ) : ℚ) < (k : ℚ) := (mul_lt_mul_right hd).mp h1
    have hki : (k : ℚ) < ((i : ℕ) : ℚ) + 1 := (mul_lt_mul_right hd).mp h2
    have hik' : ((i : ℕ) : ℤ) < k := by exact_mod_cast hik
    have hki' : k < ((i : ℕ) : ℤ) + 1 := by exact_mod_cast hki
    omega
  · rw [Bool.not_eq_true] at hb
    have ht_ne : ¬ (t = (Int.floor (t / d) : ℚ) * d) := by
      simpa only [onBoundary, decide_eq_false_iff_not] using hb
    have ht_div : (Int.floor (t / d) : ℚ) < t / d := by
      refine lt_of_le_of_ne (Int.floor_le (t / d)) ?_
      intro hc
      refine ht_ne ?_
      rw [hc, div_mul_cancel₀ t hd.ne']
    have hfl_nonneg : 0 ≤ Int.floor (t / d) :=
      Int.floor_nonneg.mpr (div_nonneg ht0 hd.le)
    have hcast : (((Int.floor (t / d)).toNat : ℕ) : ℚ) = ((Int.floor (t / d) : ℤ) : ℚ) := by
      exact_mod_cast congrArg Int.cast (Int.toNat_of_nonneg hfl_nonneg)
    have hkey : ∀ i : ℕ,
        (decide (((i : ℕ) : ℚ) * d < t) &&
          decide (t < (((i : ℕ) : ℚ) + 1) * d)) = true ↔
        i = (Int.floor (t / d)).toNat := by
      intro i
      simp only [Bool.and_eq_true, decide_eq_true_eq]
      constructor
      · rintro ⟨h1, h2⟩
        have h1' : ((i : ℕ) : ℚ) < t / d := (lt_div_iff hd).mpr h1
        have h2' : t / d < ((i : ℕ) : ℚ) + 1 := (div_lt_iff hd).mpr h2
        have hle1 : ((i : ℕ) : ℤ) ≤ Int.floor (t / d) :=
          Int.le_floor.mpr (by exact_mod_cast h1'.le)
        have hlt2 : Int.floor (t / d) < ((i : ℕ) : ℤ) + 1 :=
          Int.floor_lt.mpr (by exact_mod_cast h2')
        omega
      · rintro rfl
        constructor
        · rw [hcast]
          exact (lt_div_iff hd).mp ht_div
        · rw [hcast]
          exact (div_lt_iff hd).mp (Int.lt_floor_add_one (t / d))
    have hceil : Int.floor (t / d) < Int.ceil (maxT / d) := by
      have h1 : t / d ≤ maxT / d := by gcongr
      have h2 : (Int.floor (t / d) : ℚ) < (Int.ceil (maxT / d) : ℚ) :=
        lt_of_lt_of_le ht_div (le_trans h1 (Int.le_ceil (maxT / d)))
      exact_mod_cast h2
    have hin : (Int.floor (t / d)).toNat < (Int.ceil (maxT / d)).toNat := by omega
    rw [filter_range_eq_single _ (Int.floor (t / d)).toNat hkey _ hin]
    simp [hb]

/-- Splitting a list of spikes into absent (0) and counted (1) contributions:
the rows not on a boundary plus the boundary count give the total row count. -/
theorem sum_ite_complement (q : Spike → Bool) :
    ∀ l : List Spike,
      (l.map (fun s => if q s then 0 else 1)).sum + l.countP q = l.length := by
  intro l
  induction l with
  | nil => rfl
  | cons s t ih =>
      rw [List.map_cons, List.sum_cons, List.countP_cons, List.length_cons]
      by_cases h : q s = true
      · simp only [h, if_true]
        omega
      · rw [Bool.not_eq_true] at h
        simp only [h, Bool.false_eq_true, if_false]
        omega

/-- Counterexample to C2 as stated: the one-spike table at time -1/2 with
duration 1 is accepted by splitstimuli, which returns no windows (the ceiling
of the maximal time is 0), so the total row count over all windows is 0,
while the input row count minus the number of spikes on an exact multiple of
the duration is 1 - 0 = 1. -/
theorem splitstimuli_count_counterexample :
    splitstimuli [⟨0, -1/2⟩] 1 = some []
    ∧ (([] : List (List Spike)).map List.length).sum = 0
    ∧ ([⟨0, -1/2⟩] : List Spike).length -
        ([⟨0, -1/2⟩] : List Spike).countP (fun s => onBoundary s.time 1) = 1
    ∧ (0 : ℕ) ≠ 1 := by
  have hfl : Int.floor ((-1/2 : ℚ) / 1) = -1 := by
    rw [Int.floor_eq_iff]
    norm_num
  have hb : onBoundary (-1/2 : ℚ) 1 = false := by
    simp only [onBoundary, hfl, decide_eq_false_iff_not]
    norm_num
  refine ⟨?_, rfl, ?_, by norm_num⟩
  · have h0 : Int.ceil ((-1/2 : ℚ) / 1) = 0 := by
      rw [Int.ceil_eq_iff]
      constructor
      · norm_num
      · norm_num
    have hceil : (Int.ceil ((-1/2 : ℚ) / 1)).toNat = 0 := by
      rw [h0]
      rfl
    simp only [splitstimuli, maxTime, List.map_nil, List.foldl_nil, hceil,
      List.range_zero, List.map_nil]
  · simp [List.countP_cons, hb]

/-- C2 (amended): for a non-empty spike table all of whose times are
non-negative and a positive duration d, splitstimuli returns exactly
ceil(max(times)/d) windows in order; window i holds exactly the spikes with
i*d < time < (i+1)*d, each rebased by i*d; a time is an exact multiple of d
iff onBoundary holds of it; and the total row count across windows equals
the input row count minus the number of spikes on an exact multiple of d.
(The non-negativity hypothesis is forced by the counterexample above.) -/
theorem splitstimuli_spec (spikes : List Spike) (d : ℚ)
    (hne : spikes ≠ []) (hd : 0 < d) (hpos : ∀ sp ∈ spikes, 0 ≤ sp.time) :
    ∃ ws, splitstimuli spikes d = some ws ∧
      (ws.length : ℤ) = Int.ceil (maxTime spikes / d) ∧
      ws = (List.range ws.length).map (fun (i : ℕ) =>
        ((spikes.filter (fun s =>
            decide (((i : ℕ) : ℚ) * d < s.time) &&
            decide (s.time < (((i : ℕ) : ℚ) + 1) * d))).map
          (fun s => { s with time := s.time - ((i : ℕ) : ℚ) * d }))) ∧
      (∀ t : ℚ, onBoundary t d = true ↔ ∃ k : ℤ, t = (k : ℚ) * d) ∧
      (ws.map List.length).sum =
        spikes.length - spikes.countP (fun s => onBoundary s.time d) := by
  match spikes, hne with
  | sp :: rest, _ =>
    have hmax0 : 0 ≤ maxTime (sp :: rest) :=
      le_trans (hpos sp (by simp)) (maxTime_ge sp rest sp (by simp))
    have hceil0 : 0 ≤ Int.ceil (maxTime (sp :: rest) / d) :=
      Int.ceil_nonneg (div_nonneg hmax0 hd.le)
    refine ⟨_, rfl, ?_, ?_, fun t => onBoundary_iff t d hd.ne', ?_⟩
    · simp only [List.length_map, List.length_range]
      omega
    · simp only [List.length_map, List.length_range]
    · rw [List.map_map]
      have hlen : (List.range (Int.ceil (maxTime (sp :: rest) / d)).toNat).map
          (List.length ∘ (fun (i : ℕ) =>
            (((sp :: rest).filter (fun s =>
                decide (((i : ℕ) : ℚ) * d < s.time) &&
                decide (s.time < (((i : ℕ) : ℚ) + 1) * d))).map
              (fun s => { s with time := s.time - ((i : ℕ) : ℚ) * d })))) =
          (List.range (Int.ceil (maxTime (sp :: rest) / d)).toNat).map
            (fun (i : ℕ) => ((sp :: rest).filter (fun s =>
                decide (((i : ℕ) : ℚ) * d < s.time) &&
                decide (s.time < (((i : ℕ) : ℚ) + 1) * d))).length) := by
        refine List.map_congr_left ?_
        intro i _
        simp [List.length_map]
      rw [hlen, sum_count_swap, List.map_congr_left (fun s hs =>
        window_count d hd (maxTime (sp :: rest)) s.time (hpos s hs)
          (maxTime_ge sp rest s hs))]
      have hcompl := sum_ite_complement (fun s => onBoundary s.time d) (sp :: rest)
      omega

/-- Witness for C2 (amended): the spec applied to the three-spike table with
times 1, 2, 3 and duration 2 (the spike at time 2 sits on a boundary). -/
theorem splitstimuli_spec_witness :
    ∃ ws, splitstimuli [⟨0, 1⟩, ⟨1, 2⟩, ⟨2, 3⟩] 2 = some ws ∧
      (ws.length : ℤ) = Int.ceil (maxTime [⟨0, 1⟩, ⟨1, 2⟩, ⟨2, 3⟩] / 2) ∧
      ws = (List.range ws.length).map (fun (i : ℕ) =>
        (([⟨0, 1⟩, ⟨1, 2⟩, ⟨2, 3⟩] : List Spike).filter (fun s =>
            decide (((i : ℕ) : ℚ) * 2 < s.time) &&
            decide (s.time < (((i : ℕ) : ℚ) + 1) * 2))).map
          (fun s => { s with time := s.time - ((i : ℕ) : ℚ) * 2 })) ∧
      (∀ t : ℚ, onBoundary t 2 = true ↔ ∃ k : ℤ, t = (k : ℚ) * 2) ∧
      (ws.map List.length).sum =
        ([⟨0, 1⟩, ⟨1, 2⟩, ⟨2, 3⟩] : List Spike).length -
        ([⟨0, 1⟩, ⟨1, 2⟩, ⟨2, 3⟩] : List Spike).countP
          (fun s => onBoundary s.time 2) :=
  splitstimuli_spec [⟨0, 1⟩, ⟨1, 2⟩, ⟨2, 3⟩] 2 (by simp) (by norm_num)
    (by
      intro sp hsp
      fin_cases hsp <;> norm_num)

end SpikeAnalysis
